import Mathlib

/-!
Shallow embedding of the Enterprise Document Search application
(`Document_processor.py`, `rag_engine.py`, `config.py`) and proofs of the
behavioural properties claimed by its specification.

Python dictionaries used for chunk metadata are modelled as association
lists with first-match lookup and overwriting insertion; the external PDF
libraries (PyMuPDF text extraction, pdf2image/pytesseract OCR, PyPDFLoader)
are modelled by giving each PDF its observable results of those calls, each
an `Except` so that the library raising an exception is representable.
The external FAISS retriever and the LLM are parameters of `query`, as they
are library calls consumed through their documented contracts.
-/

namespace DocSearch

/-- Python `dict[k]` lookup on an association-list model of a dict. -/
def metaGet : List (String × String) → String → Option String
  | [], _ => none
  | (k', v) :: m, k => if k' = k then some v else metaGet m k

/-- Python `dict.get(k, d)` with a default. -/
def metaGetD (m : List (String × String)) (k d : String) : String :=
  (metaGet m k).getD d

/-- Remove every entry with the given key. -/
def removeKey : List (String × String) → String → List (String × String)
  | [], _ => []
  | (k', v) :: m, k => if k' = k then removeKey m k else (k', v) :: removeKey m k

/-- Python `dict[k] = v`: overwriting insertion. -/
def metaSet (m : List (String × String)) (k v : String) : List (String × String) :=
  (k, v) :: removeKey m k

/-- A langchain `Document`: page content plus a metadata dictionary. -/
structure Document where
  page_content : String
  metadata : List (String × String)
deriving DecidableEq

deriving instance DecidableEq for Except

/-- A PDF file as observed through the three external libraries used by
`Document_processor.py`: `openResult` is the per-page text that
`fitz.open` + `page.get_text()` yields, `ocrResult` the per-page OCR text
from `convert_from_path` + `pytesseract.image_to_string`, and
`loaderResult` the documents `PyPDFLoader(...).load()` yields. An `error`
value models the library call raising an exception. -/
structure PDF where
  openResult : Except String (List String)
  ocrResult : Except String (List String)
  loaderResult : Except String (List Document)
deriving DecidableEq

/-- Characters removed by Python `str.strip()` (ASCII whitespace). -/
def isPySpace (c : Char) : Bool :=
  c = ' ' || c = '\t' || c = '\n' || c = '\r' || c = '\x0b' || c = '\x0c'

/-- Python `str.strip()`. -/
def pyStrip (s : String) : String :=
  String.mk (((s.toList.dropWhile isPySpace).reverse.dropWhile isPySpace).reverse)

/-- Python `os.path.basename` on POSIX paths: everything after the last
`/`. -/
def basename (p : String) : String :=
  String.mk ((p.toList.reverse.takeWhile (fun c => c != '/')).reverse)

/-- Python `os.path.join` for the paths this program builds. -/
def pathJoin (a b : String) : String := a ++ "/" ++ b

/-- `config.DOC_CATEGORIES`. -/
def DOC_CATEGORIES : List String := ["HR", "Finance", "Technical"]

/-- `DocumentProcessor.is_scanned_pdf`: concatenate the text of all pages
and report whether the stripped result has fewer than 100 characters. -/
def is_scanned_pdf (pdf : PDF) : Except String Bool := do
  let pages ← pdf.openResult
  pure (decide ((pyStrip (String.join pages)).length < 100))

/-- The page-boundary marker `extract_text_with_ocr` puts before page `i`
(0-based) of OCR output. -/
def pageMarker (i : Nat) (t : String) : String :=
  "\n--- Page " ++ toString (i + 1) ++ " ---\n" ++ t

/-- `DocumentProcessor.extract_text_with_ocr`: OCR each page image and
concatenate the results with page-boundary markers. -/
def extract_text_with_ocr (pdf : PDF) : Except String String := do
  let texts ← pdf.ocrResult
  pure (String.join (texts.enum.map (fun p => pageMarker p.1 p.2)))

/-- The single `Document` the scanned path of `load_pdf` builds: the OCR
text with the metadata dictionary written there. -/
def ocrDocument (pdf_path category : String) (text : String) : Document :=
  { page_content := text,
    metadata := [("source", pdf_path), ("category", category),
                 ("filename", basename pdf_path),
                 ("extraction_method", "OCR")] }

/-- The per-page tagging the text path of `load_pdf` performs:
`doc.metadata["category"] = category` and so on, in source order. -/
def tagTextDoc (pdf_path category : String) (d : Document) : Document :=
  { page_content := d.page_content,
    metadata := metaSet (metaSet (metaSet d.metadata
      "category" category) "filename" (basename pdf_path))
      "extraction_method" "text" }

/-- The body of `DocumentProcessor.load_pdf` before its `except` clause:
classify the PDF, then either build one OCR document or load per-page
documents and tag each with category, filename and extraction method. -/
def loadPdfBody (pdf : PDF) (pdf_path category : String) :
    Except String (List Document) := do
  let scanned ← is_scanned_pdf pdf
  if scanned then
    let text ← extract_text_with_ocr pdf
    pure [ocrDocument pdf_path category text]
  else
    let docs ← pdf.loaderResult
    pure (docs.map (tagTextDoc pdf_path category))

/-- `DocumentProcessor.load_pdf`: any exception from the body is caught and
the file yields no documents. -/
def load_pdf (pdf : PDF) (pdf_path category : String) : List Document :=
  match loadPdfBody pdf pdf_path category with
  | .ok docs => docs
  | .error _ => []

/-- The filename test on line 119 of `Document_processor.py`:
`f.lower().endswith(".pdf")` (ASCII lowercasing, character-level suffix
test). -/
def isPdfName (f : String) : Bool :=
  (".pdf".toList).isSuffixOf (f.toList.map Char.toLower)

/-- Contents of one category folder: `os.listdir` order of (filename, file). -/
abbrev Folder := List (String × PDF)

/-- The documents folder: category name to its subfolder, `none` if the
subfolder does not exist. -/
abbrev FileSystem := String → Option Folder

/-- The documents one category folder contributes in `process_documents`:
keep the files whose lowercased name ends in `.pdf`, load each with
`load_pdf`, concatenate. -/
def categoryDocs (base c : String) (folder : Folder) : List Document :=
  ((folder.filter (fun p => isPdfName p.1)).map
    (fun p => load_pdf p.2 (pathJoin (pathJoin base c) p.1) c)).flatten

/-- `os.makedirs(category_path)`: the folder now exists and is empty. -/
def createFolder (fs : FileSystem) (c : String) : FileSystem :=
  fun x => if x = c then some [] else fs x

/-- One iteration of the category loop of `process_documents`: a missing
folder is created and skipped, an existing one contributes its documents. -/
def ingestStep (base : String) (acc : List Document × FileSystem) (c : String) :
    List Document × FileSystem :=
  match acc.2 c with
  | none => (acc.1, createFolder acc.2 c)
  | some folder => (acc.1 ++ categoryDocs base c folder, acc.2)

/-- `DocumentProcessor.process_documents`, parameterised by the external
`RecursiveCharacterTextSplitter.split_documents` (`split`). Returns the
chunk list together with the file system after folder creation; an empty
document list is returned as-is without splitting. -/
def process_documents (split : List Document → List Document)
    (base : String) (fs : FileSystem) : List Document × FileSystem :=
  let r := DOC_CATEGORIES.foldl (ingestStep base) ([], fs)
  (if r.1.isEmpty then [] else split r.1, r.2)

/-- A retriever configuration as built by `vector_store.as_retriever(...)`:
search type, `k`, `fetch_k`, and the optional category filter from
`search_kwargs["filter"] = \x7b"category": ...\x7d`. -/
structure Retriever where
  searchType : String
  k : Nat
  fetchK : Nat
  categoryFilter : Option String
deriving DecidableEq

/-- The retriever `_setup_qa_chain` installs: MMR search, k = 5,
fetch_k = 10, no filter. -/
def defaultRetriever : Retriever :=
  { searchType := "mmr", k := 5, fetchK := 10, categoryFilter := none }

/-- The retriever `query` installs when a category filter is requested:
MMR search, k = 5, fetch_k = 10, filter on the category. -/
def mkFilteredRetriever (c : String) : Retriever :=
  { searchType := "mmr", k := 5, fetchK := 10, categoryFilter := some c }

/-- `RAGEngine` state: the (possibly absent) vector store of indexed
chunks, the QA chain represented by its current retriever configuration
(`none` while `qa_chain` is unset), and the conversation memory as a list
of (question, answer) turns. -/
structure RAGEngine where
  vectorStore : Option (List Document)
  qaChain : Option Retriever
  memory : List (String × String)
deriving DecidableEq

/-- A source citation as assembled in `RAGEngine.query`. -/
structure Citation where
  filename : String
  category : String
  content_preview : String
deriving DecidableEq

/-- The result dictionary `query` returns. -/
structure QueryResult where
  answer : String
  sources : List Citation
deriving DecidableEq

/-- `doc.metadata.get("filename", "Unknown")`. -/
def docFilename (d : Document) : String :=
  metaGetD d.metadata "filename" "Unknown"

/-- The citation built for one source document: filename, category (with
`"Unknown"` defaults), and `doc.page_content[:200] + "..."`. -/
def mkCitation (d : Document) : Citation :=
  { filename := docFilename d,
    category := metaGetD d.metadata "category" "Unknown",
    content_preview := d.page_content.take 200 ++ "..." }

/-- The source-deduplication loop of `query`: one citation per filename,
first occurrence wins, skipping filenames already in `seen`. -/
def buildSources : List Document → List String → List Citation
  | [], _ => []
  | d :: ds, seen =>
    if docFilename d ∈ seen then buildSources ds seen
    else mkCitation d :: buildSources ds (docFilename d :: seen)

/-- The retriever `query` uses for a given `category_filter` argument:
only a truthy value different from `"All"` reconfigures; otherwise the
chain keeps its current retriever. -/
def usedRetriever (chainRetriever : Retriever) (cf : Option String) : Retriever :=
  match cf with
  | none => chainRetriever
  | some c => if c = "" ∨ c = "All" then chainRetriever else mkFilteredRetriever c

/-- `RAGEngine.query`, parameterised by the external FAISS retrieval
(`retrieve`, applied to the stored chunks, the active retriever
configuration and the question) and the external LLM call (`llm`, applied
to the question, the conversation memory and the retrieved documents).
Returns the result dictionary and the engine state after the call: the
chain keeps the (possibly reconfigured) retriever and the memory gains
the new turn. -/
def query (retrieve : List Document → Retriever → String → List Document)
    (llm : String → List (String × String) → List Document → String)
    (e : RAGEngine) (question : String) (category_filter : Option String) :
    QueryResult × RAGEngine :=
  match e.qaChain with
  | none =>
    ({ answer := "⚠️ No documents indexed yet. Please add some documents and click \x27Re-index\x27.",
       sources := [] }, e)
  | some chainRetriever =>
    let r := usedRetriever chainRetriever category_filter
    let docs := retrieve (e.vectorStore.getD []) r question
    let answer := llm question e.memory docs
    ({ answer := answer, sources := buildSources docs [] },
     { vectorStore := e.vectorStore, qaChain := some r,
       memory := e.memory ++ [(question, answer)] })

/-- `RAGEngine.load_index`, with the persisted artifact modelled by an
`Option`: `none` when nothing exists at `VECTOR_STORE_PATH`, otherwise the
chunk list `FAISS.load_local` restores. On success the store is loaded and
`_setup_qa_chain` installs the default retriever; on absence it returns
`False` and changes nothing. -/
def load_index (persisted : Option (List Document)) (e : RAGEngine) :
    Bool × RAGEngine :=
  match persisted with
  | none => (false, e)
  | some vs =>
    (true, { vectorStore := some vs, qaChain := some defaultRetriever,
             memory := e.memory })

/-- `RAGEngine.build_index`: store the documents, persist, and set up the
QA chain with the default retriever. -/
def build_index (documents : List Document) (e : RAGEngine) : RAGEngine :=
  { vectorStore := some documents, qaChain := some defaultRetriever,
    memory := e.memory }

/-- `RAGEngine.clear_memory`. -/
def clear_memory (e : RAGEngine) : RAGEngine :=
  { vectorStore := e.vectorStore, qaChain := e.qaChain, memory := [] }

/-! ### Helper definitions used to state the deduplication claim -/

/-- Modelled from the spec: the subsequence of retrieved documents kept by
"deduplicating by filename (first occurrence wins, original retrieval
order preserved)". -/
def specFirstOccurrences : List Document → List String → List Document
  | [], _ => []
  | d :: ds, seen =>
    if docFilename d ∈ seen then specFirstOccurrences ds seen
    else d :: specFirstOccurrences ds (docFilename d :: seen)

/-- First-occurrence deduplication on a list of names, skipping names in
`seen`. -/
def firstDedup : List String → List String → List String
  | [], _ => []
  | x :: xs, seen =>
    if x ∈ seen then firstDedup xs seen
    else x :: firstDedup xs (x :: seen)

/-! ### Metadata lookup lemmas -/

theorem metaGet_metaSet_self (m : List (String × String)) (k v : String) :
    metaGet (metaSet m k v) k = some v := by
  simp [metaGet, metaSet]

theorem metaGet_removeKey_ne (k k' : String) (h : k' ≠ k)
    (m : List (String × String)) :
    metaGet (removeKey m k) k' = metaGet m k' := by
  induction m with
  | nil => rfl
  | cons a t ih =>
    obtain ⟨a1, a2⟩ := a
    have hkk' : k ≠ k' := fun hh => h hh.symm
    by_cases hak : a1 = k
    · simp [removeKey, metaGet, hak, hkk', ih]
    · by_cases hak' : a1 = k'
      · simp [removeKey, metaGet, hak, hak', h]
      · simp [removeKey, metaGet, hak, hak', ih]

theorem metaGet_metaSet_ne (m : List (String × String)) (k k' v : String)
    (h : k' ≠ k) : metaGet (metaSet m k v) k' = metaGet m k' := by
  have h1 : k ≠ k' := fun hh => h hh.symm
  simp only [metaSet, metaGet, h1, if_false]
  exact metaGet_removeKey_ne k k' h m

theorem metaGet_tagTextDoc (path c : String) (d : Document) :
    metaGet (tagTextDoc path c d).metadata "category" = some c ∧
      metaGet (tagTextDoc path c d).metadata "filename" = some (basename path) ∧
      metaGet (tagTextDoc path c d).metadata "extraction_method" = some "text" := by
  refine ⟨?_, ?_, ?_⟩
  · rw [tagTextDoc, metaGet_metaSet_ne _ _ _ _ (by decide),
      metaGet_metaSet_ne _ _ _ _ (by decide), metaGet_metaSet_self]
  · rw [tagTextDoc, metaGet_metaSet_ne _ _ _ _ (by decide), metaGet_metaSet_self]
  · rw [tagTextDoc, metaGet_metaSet_self]

theorem metaGet_ocrDocument (path c text : String) :
    metaGet (ocrDocument path c text).metadata "category" = some c ∧
      metaGet (ocrDocument path c text).metadata "filename" = some (basename path) ∧
      metaGet (ocrDocument path c text).metadata "extraction_method" = some "OCR" := by
  refine ⟨?_, ?_, ?_⟩ <;>
    · show metaGet _ _ = _
      simp only [ocrDocument, metaGet]
      rfl

/-! ### Equation lemmas for `loadPdfBody` and `load_pdf` -/

theorem loadPdfBody_open_error (pdf : PDF) (path c e : String)
    (ho : pdf.openResult = .error e) : loadPdfBody pdf path c = .error e := by
  simp [loadPdfBody, is_scanned_pdf, ho, Bind.bind, Except.bind]

theorem loadPdfBody_ocr (pdf : PDF) (path c : String) (pages : List String)
    (ho : pdf.openResult = .ok pages)
    (hs : (pyStrip (String.join pages)).length < 100) :
    loadPdfBody pdf path c =
      match pdf.ocrResult with
      | .error e => .error e
      | .ok texts =>
        .ok [ocrDocument path c
          (String.join (texts.enum.map (fun p => pageMarker p.1 p.2)))] := by
  simp only [loadPdfBody, is_scanned_pdf, extract_text_with_ocr, ho,
    Bind.bind, Except.bind, pure, Except.pure, decide_eq_true_eq]
  rw [if_pos hs]
  cases pdf.ocrResult <;> rfl

theorem loadPdfBody_text (pdf : PDF) (path c : String) (pages : List String)
    (ho : pdf.openResult = .ok pages)
    (hs : ¬ (pyStrip (String.join pages)).length < 100) :
    loadPdfBody pdf path c =
      match pdf.loaderResult with
      | .error e => .error e
      | .ok docs => .ok (docs.map (tagTextDoc path c)) := by
  simp only [loadPdfBody, is_scanned_pdf, extract_text_with_ocr, ho,
    Bind.bind, Except.bind, pure, Except.pure, decide_eq_true_eq]
  rw [if_neg hs]
  cases pdf.loaderResult <;> rfl

theorem load_pdf_of_error (pdf : PDF) (path c e : String)
    (hb : loadPdfBody pdf path c = .error e) : load_pdf pdf path c = [] := by
  simp [load_pdf, hb]

theorem mem_load_pdf (pdf : PDF) (path c : String) (d : Document)
    (hd : d ∈ load_pdf pdf path c) :
    (∃ text, d = ocrDocument path c text) ∨
      (∃ docs d0, pdf.loaderResult = .ok docs ∧ d0 ∈ docs ∧
        d = tagTextDoc path c d0) := by
  unfold load_pdf at hd
  cases ho : pdf.openResult with
  | error e => rw [loadPdfBody_open_error pdf path c e ho] at hd; simp at hd
  | ok pages =>
    by_cases hs : (pyStrip (String.join pages)).length < 100
    · rw [loadPdfBody_ocr pdf path c pages ho hs] at hd
      cases hocr : pdf.ocrResult with
      | error e => rw [hocr] at hd; simp at hd
      | ok texts =>
        rw [hocr] at hd
        simp only [List.mem_singleton] at hd
        exact Or.inl ⟨_, hd⟩
    · rw [loadPdfBody_text pdf path c pages ho hs] at hd
      cases hl : pdf.loaderResult with
      | error e => rw [hl] at hd; simp at hd
      | ok docs =>
        rw [hl] at hd
        simp only [List.mem_map] at hd
        obtain ⟨d0, hd0, hd1⟩ := hd
        exact Or.inr ⟨docs, d0, rfl, hd0, hd1.symm⟩

theorem mem_load_pdf_category (pdf : PDF) (path c : String) (d : Document)
    (hd : d ∈ load_pdf pdf path c) :
    metaGet d.metadata "category" = some c := by
  rcases mem_load_pdf pdf path c d hd with ⟨text, rfl⟩ | ⟨docs, d0, _, _, rfl⟩
  · exact (metaGet_ocrDocument path c text).1
  · exact (metaGet_tagTextDoc path c d0).1

theorem categoryDocs_append (base c : String) (l1 l2 : Folder) :
    categoryDocs base c (l1 ++ l2) =
      categoryDocs base c l1 ++ categoryDocs base c l2 := by
  simp [categoryDocs, List.filter_append]

theorem categoryDocs_cons (base c : String) (n : String) (p : PDF) (l : Folder) :
    categoryDocs base c ((n, p) :: l) =
      (if isPdfName n then load_pdf p (pathJoin (pathJoin base c) n) c
       else []) ++ categoryDocs base c l := by
  simp only [categoryDocs, List.filter_cons]
  by_cases h : isPdfName n <;> simp [h]

theorem mem_categoryDocs_category (base c : String) (folder : Folder)
    (d : Document) (hd : d ∈ categoryDocs base c folder) :
    metaGet d.metadata "category" = some c := by
  simp only [categoryDocs, List.mem_flatten, List.mem_map] at hd
  obtain ⟨l, ⟨p, _, hp⟩, hdl⟩ := hd
  subst hp
  exact mem_load_pdf_category _ _ _ _ hdl

/-! ### Deduplication lemmas -/

theorem buildSources_eq_spec (ds : List Document) (seen : List String) :
    buildSources ds seen = (specFirstOccurrences ds seen).map mkCitation := by
  induction ds generalizing seen with
  | nil => rfl
  | cons d t ih =>
    by_cases hd : docFilename d ∈ seen
    · simp [buildSources, specFirstOccurrences, hd, ih]
    · simp [buildSources, specFirstOccurrences, hd, ih]

theorem mem_specFirstOccurrences (ds : List Document) (seen : List String)
    (d : Document) (hd : d ∈ specFirstOccurrences ds seen) : d ∈ ds := by
  induction ds generalizing seen with
  | nil => simp [specFirstOccurrences] at hd
  | cons d0 t ih =>
    by_cases h0 : docFilename d0 ∈ seen
    · simp only [specFirstOccurrences, h0, if_true] at hd
      exact List.mem_cons_of_mem d0 (ih _ hd)
    · simp only [specFirstOccurrences, h0, if_false] at hd
      rcases List.mem_cons.mp hd with h | h
      · exact h ▸ List.mem_cons_self d0 t
      · exact List.mem_cons_of_mem d0 (ih _ h)

theorem mem_buildSources (ds : List Document) (seen : List String)
    (cit : Citation) (hc : cit ∈ buildSources ds seen) :
    ∃ d, d ∈ ds ∧ cit = mkCitation d := by
  rw [buildSources_eq_spec] at hc
  simp only [List.mem_map] at hc
  obtain ⟨d, hd, hcit⟩ := hc
  exact ⟨d, mem_specFirstOccurrences ds seen d hd, hcit.symm⟩

theorem map_filename_spec (ds : List Document) (seen : List String) :
    (specFirstOccurrences ds seen).map docFilename =
      firstDedup (ds.map docFilename) seen := by
  induction ds generalizing seen with
  | nil => rfl
  | cons d t ih =>
    by_cases hd : docFilename d ∈ seen
    · simp [specFirstOccurrences, firstDedup, hd, ih]
    · simp [specFirstOccurrences, firstDedup, hd, ih]

theorem firstDedup_sublist (xs seen : List String) :
    (firstDedup xs seen).Sublist xs := by
  induction xs generalizing seen with
  | nil => simp [firstDedup]
  | cons x t ih =>
    by_cases hx : x ∈ seen
    · simp only [firstDedup, hx, if_true]
      exact (ih seen).cons x
    · simp only [firstDedup, hx, if_false]
      exact (ih (x :: seen)).cons₂ x

theorem firstDedup_count (xs : List String) (seen : List String) (f : String) :
    (firstDedup xs seen).count f =
      if f ∈ xs ∧ f ∉ seen then 1 else 0 := by
  induction xs generalizing seen with
  | nil => simp [firstDedup]
  | cons x t ih =>
    by_cases hx : x ∈ seen
    · simp only [firstDedup, hx, if_true]
      rw [ih]
      by_cases hf : f = x
      · subst hf
        simp [hx]
      · simp [List.mem_cons, hf]
    · simp only [firstDedup, hx, if_false]
      by_cases hf : f = x
      · subst hf
        rw [List.count_cons_self, ih]
        simp [hx]
      · rw [List.count_cons_of_ne hf, ih]
        simp [List.mem_cons, hf]

theorem map_filename_buildSources (ds : List Document) :
    (buildSources ds []).map Citation.filename =
      firstDedup (ds.map docFilename) [] := by
  rw [buildSources_eq_spec, List.map_map]
  have h : (Citation.filename ∘ mkCitation) = docFilename := by
    funext d
    rfl
  rw [h, map_filename_spec]

/-! ### Ingestion fold lemmas -/

theorem mem_foldl_ingest (base : String) (cats : List String)
    (acc : List Document × FileSystem) (d : Document)
    (hd : d ∈ (cats.foldl (ingestStep base) acc).1) :
    d ∈ acc.1 ∨ ∃ c folder, c ∈ cats ∧ d ∈ categoryDocs base c folder := by
  induction cats generalizing acc with
  | nil => exact Or.inl hd
  | cons c t ih =>
    rw [List.foldl_cons] at hd
    rcases ih (ingestStep base acc c) hd with h | ⟨c', folder, hc', hdf⟩
    · unfold ingestStep at h
      cases hfs : acc.2 c with
      | none => rw [hfs] at h; exact Or.inl h
      | some folder =>
        rw [hfs] at h
        rcases List.mem_append.mp h with h1 | h1
        · exact Or.inl h1
        · exact Or.inr ⟨c, folder, List.mem_cons_self c t, h1⟩
    · exact Or.inr ⟨c', folder, List.mem_cons_of_mem c hc', hdf⟩

theorem foldl_ingest_fs_isSome (base : String) (cats : List String)
    (acc : List Document × FileSystem) (c : String)
    (hc : (acc.2 c).isSome) :
    (((cats.foldl (ingestStep base) acc).2) c).isSome := by
  induction cats generalizing acc with
  | nil => exact hc
  | cons c0 t ih =>
    rw [List.foldl_cons]
    refine ih (ingestStep base acc c0) ?_
    unfold ingestStep
    cases hfs : acc.2 c0 with
    | none =>
      by_cases hcc : c = c0
      · subst hcc
        simp [createFolder]
      · simpa [createFolder, hcc] using hc
    | some folder => exact hc

theorem foldl_ingest_creates (base : String) (cats : List String)
    (acc : List Document × FileSystem) (c : String) (hc : c ∈ cats) :
    (((cats.foldl (ingestStep base) acc).2) c).isSome := by
  induction cats generalizing acc with
  | nil => simp at hc
  | cons c0 t ih =>
    rw [List.foldl_cons]
    rcases List.mem_cons.mp hc with h | h
    · subst h
      refine foldl_ingest_fs_isSome base t _ c ?_
      unfold ingestStep
      cases hfs : acc.2 c with
      | none => simp [createFolder]
      | some folder => simp [hfs]
    · exact ih _ h

theorem categoryDocs_of_no_pdfs (base c : String) (folder : Folder)
    (h : folder.filter (fun p => isPdfName p.1) = []) :
    categoryDocs base c folder = [] := by
  simp [categoryDocs, h]

theorem foldl_ingest_docs_of_no_pdfs (base : String) (cats : List String)
    (acc : List Document × FileSystem)
    (h : ∀ c, c ∈ cats → ∀ folder, acc.2 c = some folder →
      folder.filter (fun p => isPdfName p.1) = []) :
    (cats.foldl (ingestStep base) acc).1 = acc.1 := by
  induction cats generalizing acc with
  | nil => rfl
  | cons c0 t ih =>
    rw [List.foldl_cons]
    cases hfs : acc.2 c0 with
    | none =>
      have hstep : ingestStep base acc c0 = (acc.1, createFolder acc.2 c0) := by
        unfold ingestStep
        rw [hfs]
      rw [hstep, ih]
      intro c hc folder hfolder
      by_cases hcc : c = c0
      · subst hcc
        have hfolder' : folder = [] := by
          simpa [createFolder] using hfolder.symm
        rw [hfolder']
        rfl
      · exact h c (List.mem_cons_of_mem c0 hc) folder
          (by simpa [createFolder, hcc] using hfolder)
    | some folder =>
      have hnil : categoryDocs base c0 folder = [] :=
        categoryDocs_of_no_pdfs base c0 folder
          (h c0 (List.mem_cons_self c0 t) folder hfs)
      have hstep : ingestStep base acc c0 = (acc.1, acc.2) := by
        unfold ingestStep
        rw [hfs]
        show (acc.1 ++ categoryDocs base c0 folder, acc.2) = (acc.1, acc.2)
        rw [hnil, List.append_nil]
      rw [hstep, ih]
      exact fun c hc => h c (List.mem_cons_of_mem c0 hc)

/-! ### Concrete fixtures for witnesses and counterexamples -/

/-- A string of exactly 100 non-whitespace characters: the boundary of the
scan-classification threshold. -/
def aHundredChars : String := String.mk (List.replicate 100 'a')

/-- One page as `PyPDFLoader` would load it, before tagging. -/
def pageDoc : Document :=
  { page_content := "hello page", metadata := [("source", "doc"), ("page", "0")] }

/-- A text-bearing PDF whose extracted text is exactly 100 characters. -/
def textPdf : PDF :=
  { openResult := .ok [aHundredChars], ocrResult := .ok ["ocr page"],
    loaderResult := .ok [pageDoc] }

/-- A PDF on which the libraries raise. -/
def badPdf : PDF :=
  { openResult := .error "boom", ocrResult := .error "boom",
    loaderResult := .error "boom" }

/-- An indexed HR chunk. -/
def sampleDoc : Document :=
  { page_content := "Vacation policy: 20 days per year",
    metadata := [("filename", "policy.pdf"), ("category", "HR")] }

/-- An indexed Finance chunk. -/
def finDoc : Document :=
  { page_content := "The travel budget is five",
    metadata := [("filename", "budget.pdf"), ("category", "Finance")] }

/-- A retrieval function that returns nothing. -/
def retrieveNone : List Document → Retriever → String → List Document :=
  fun _ _ _ => []

/-- A retrieval function returning every stored chunk that satisfies the
retriever's category filter: the documented FAISS metadata-filter contract. -/
def retrieveFiltered : List Document → Retriever → String → List Document :=
  fun vs r _ => vs.filter (fun d =>
    match r.categoryFilter with
    | none => true
    | some cat => metaGet d.metadata "category" == some cat)

/-- A constant LLM. -/
def llmConst : String → List (String × String) → List Document → String :=
  fun _ _ _ => "an answer"

/-- An engine before any index is loaded or built. -/
def emptyEngine : RAGEngine :=
  { vectorStore := none, qaChain := none, memory := [] }

/-- An engine holding an index with one HR and one Finance chunk. -/
def engineMixed : RAGEngine :=
  { vectorStore := some [sampleDoc, finDoc], qaChain := some defaultRetriever,
    memory := [] }

/-- A documents folder whose only category subfolder is `HR`, holding one
non-PDF file. -/
def fsNoPdfs : FileSystem :=
  fun c => if c = "HR" then some [("notes.txt", badPdf)] else none

/-- A documents folder whose only PDF is one text PDF under `HR`. -/
def fsHRonly : FileSystem :=
  fun c => if c = "HR" then some [("a.pdf", textPdf)] else none

theorem retrieveFiltered_honors (vs : List Document) (r : Retriever)
    (q : String) (d : Document) (cat : String)
    (hd : d ∈ retrieveFiltered vs r q) (hf : r.categoryFilter = some cat) :
    metaGet d.metadata "category" = some cat := by
  unfold retrieveFiltered at hd
  rw [hf] at hd
  have h := List.of_mem_filter hd
  simpa using h

/-! ### Claim theorems -/

/-- C3: scan classification concatenates the page texts and classifies as
scanned exactly when the stripped length is strictly below 100; a file at
exactly the threshold takes the text path, and the loaded documents carry
extraction method `"text"` or `"OCR"` accordingly. -/
theorem scan_classification_threshold (pdf : PDF) (path cat : String)
    (pages : List String) (hopen : pdf.openResult = .ok pages) :
    is_scanned_pdf pdf =
      .ok (decide ((pyStrip (String.join pages)).length < 100)) ∧
    (100 ≤ (pyStrip (String.join pages)).length →
      ∀ d ∈ load_pdf pdf path cat,
        metaGet d.metadata "extraction_method" = some "text") ∧
    ((pyStrip (String.join pages)).length < 100 →
      ∀ d ∈ load_pdf pdf path cat,
        metaGet d.metadata "extraction_method" = some "OCR") := by
  refine ⟨?_, ?_, ?_⟩
  · simp [is_scanned_pdf, hopen, Bind.bind, Except.bind, pure, Except.pure]
  · intro hge d hd
    have hs : ¬ (pyStrip (String.join pages)).length < 100 := not_lt.mpr hge
    unfold load_pdf at hd
    rw [loadPdfBody_text pdf path cat pages hopen hs] at hd
    cases hl : pdf.loaderResult with
    | error e => rw [hl] at hd; simp at hd
    | ok ds =>
      rw [hl] at hd
      simp only [List.mem_map] at hd
      obtain ⟨d0, _, rfl⟩ := hd
      exact (metaGet_tagTextDoc path cat d0).2.2
  · intro hs d hd
    unfold load_pdf at hd
    rw [loadPdfBody_ocr pdf path cat pages hopen hs] at hd
    cases hocr : pdf.ocrResult with
    | error e => rw [hocr] at hd; simp at hd
    | ok texts =>
      rw [hocr] at hd
      simp only [List.mem_singleton] at hd
      subst hd
      exact (metaGet_ocrDocument path cat _).2.2

/-- C3 witness: a PDF of exactly 100 extracted characters is classified as
text and its loaded page carries extraction method `"text"`. -/
theorem scan_classification_threshold_witness :
    textPdf.openResult = .ok [aHundredChars] ∧
    100 ≤ (pyStrip (String.join [aHundredChars])).length ∧
    ∀ d ∈ load_pdf textPdf "./documents/HR/a.pdf" "HR",
      metaGet d.metadata "extraction_method" = some "text" :=
  ⟨rfl, by decide,
    (scan_classification_threshold textPdf "./documents/HR/a.pdf" "HR"
      [aHundredChars] rfl).2.1 (by decide)⟩

/-- C5: with no index loaded (`qa_chain` unset), `query` returns the fixed
"not indexed yet" answer with empty sources and leaves the engine
untouched. -/
theorem query_without_index
    (retrieve : List Document → Retriever → String → List Document)
    (llm : String → List (String × String) → List Document → String)
    (e : RAGEngine) (question : String) (cf : Option String)
    (h : e.qaChain = none) :
    query retrieve llm e question cf =
      ({ answer := "⚠️ No documents indexed yet. Please add some documents and click \x27Re-index\x27.",
         sources := [] }, e) := by
  simp [query, h]

/-- C5 witness: querying the fresh engine returns the fixed answer with no
sources. -/
theorem query_without_index_witness :
    emptyEngine.qaChain = none ∧
    query retrieveNone llmConst emptyEngine "How many vacation days?" (some "Finance") =
      ({ answer := "⚠️ No documents indexed yet. Please add some documents and click \x27Re-index\x27.",
         sources := [] }, emptyEngine) :=
  ⟨rfl, query_without_index retrieveNone llmConst emptyEngine
    "How many vacation days?" (some "Finance") rfl⟩

/-- C9: `load_index` returns `False` without touching the engine when no
persisted artifact exists, and on success loads the store, sets up the QA
chain and returns `True`. -/
theorem load_index_reports_presence (e : RAGEngine)
    (p : Option (List Document)) :
    (p = none → load_index p e = (false, e)) ∧
    (∀ vs, p = some vs →
      (load_index p e).1 = true ∧
      (load_index p e).2.vectorStore = some vs ∧
      (load_index p e).2.qaChain = some defaultRetriever ∧
      (load_index p e).2.memory = e.memory) := by
  constructor
  · intro h
    subst h
    rfl
  · intro vs h
    subst h
    exact ⟨rfl, rfl, rfl, rfl⟩

/-- C9 witness: loading with no artifact fails and changes nothing;
loading an artifact succeeds. -/
theorem load_index_reports_presence_witness :
    load_index none emptyEngine = (false, emptyEngine) ∧
    (load_index (some [sampleDoc]) emptyEngine).1 = true :=
  ⟨(load_index_reports_presence emptyEngine none).1 rfl,
    ((load_index_reports_presence emptyEngine (some [sampleDoc])).2
      [sampleDoc] rfl).1⟩

/-- C4: the citation list contains each retrieved filename exactly once,
keeping only the first occurrence in retrieval order: the citations are
exactly the first-occurrence documents mapped to citations, their filename
list is a subsequence of the retrieval-order filename list, and every
retrieved filename is cited once. -/
theorem citations_dedup_by_filename (docs : List Document) :
    buildSources docs [] = (specFirstOccurrences docs []).map mkCitation ∧
    ((buildSources docs []).map Citation.filename).Sublist
      (docs.map docFilename) ∧
    (∀ f, f ∈ docs.map docFilename →
      ((buildSources docs []).map Citation.filename).count f = 1) := by
  refine ⟨buildSources_eq_spec docs [], ?_, ?_⟩
  · rw [map_filename_buildSources]
    exact firstDedup_sublist _ _
  · intro f hf
    rw [map_filename_buildSources, firstDedup_count]
    simp [hf]

/-- C4 witness: with two chunks from `a.pdf` around one from `b.pdf`, the
citation list names `a.pdf` exactly once. -/
theorem citations_dedup_by_filename_witness :
    "a.pdf" ∈ ([⟨"alpha one", [("filename", "a.pdf"), ("category", "HR")]⟩,
      ⟨"bravo", [("filename", "b.pdf"), ("category", "HR")]⟩,
      ⟨"alpha two", [("filename", "a.pdf"), ("category", "HR")]⟩] :
        List Document).map docFilename ∧
    ((buildSources [⟨"alpha one", [("filename", "a.pdf"), ("category", "HR")]⟩,
      ⟨"bravo", [("filename", "b.pdf"), ("category", "HR")]⟩,
      ⟨"alpha two", [("filename", "a.pdf"), ("category", "HR")]⟩] []).map
        Citation.filename).count "a.pdf" = 1 :=
  ⟨by decide,
    (citations_dedup_by_filename
      [⟨"alpha one", [("filename", "a.pdf"), ("category", "HR")]⟩,
       ⟨"bravo", [("filename", "b.pdf"), ("category", "HR")]⟩,
       ⟨"alpha two", [("filename", "a.pdf"), ("category", "HR")]⟩]).2.2
      "a.pdf" (by decide)⟩

/-- C10: a file whose name does not end in `.pdf` case-insensitively is
silently ignored: removing it changes nothing, and every produced document
comes from a file with the `.pdf` suffix passed to `load_pdf`. -/
theorem non_pdf_files_ignored (base c name : String) (pdf : PDF)
    (pre post : Folder) (h : isPdfName name = false) :
    categoryDocs base c (pre ++ (name, pdf) :: post) =
      categoryDocs base c (pre ++ post) ∧
    (∀ folder : Folder, ∀ d ∈ categoryDocs base c folder,
      ∃ n q, (n, q) ∈ folder ∧ isPdfName n = true ∧
        d ∈ load_pdf q (pathJoin (pathJoin base c) n) c) := by
  constructor
  · rw [categoryDocs_append, categoryDocs_append, categoryDocs_cons, h]
    simp
  · intro folder d hd
    simp only [categoryDocs, List.mem_flatten, List.mem_map] at hd
    obtain ⟨l, ⟨p, hp, hpl⟩, hdl⟩ := hd
    obtain ⟨n, q⟩ := p
    obtain ⟨hmem, hpred⟩ := List.mem_filter.mp hp
    exact ⟨n, q, hmem, hpred, hpl ▸ hdl⟩

/-- C10 witness: a `notes.txt` entry contributes nothing to the category's
documents. -/
theorem non_pdf_files_ignored_witness :
    isPdfName "notes.txt" = false ∧
    categoryDocs "./documents" "HR" [("notes.txt", badPdf), ("a.pdf", textPdf)] =
      categoryDocs "./documents" "HR" [("a.pdf", textPdf)] :=
  ⟨by decide,
    (non_pdf_files_ignored "./documents" "HR" "notes.txt" badPdf []
      [("a.pdf", textPdf)] (by decide)).1⟩

/-- C6: an exception while loading or extracting one PDF is caught: the
file contributes no documents and the rest of the folder is still
processed. -/
theorem per_file_failures_skipped :
    (∀ pdf path cat e, loadPdfBody pdf path cat = .error e →
      load_pdf pdf path cat = []) ∧
    (∀ base c name e (bad : PDF) (pre post : Folder),
      loadPdfBody bad (pathJoin (pathJoin base c) name) c = .error e →
      categoryDocs base c (pre ++ (name, bad) :: post) =
        categoryDocs base c pre ++ categoryDocs base c post) := by
  constructor
  · exact fun pdf path cat e h => load_pdf_of_error pdf path cat e h
  · intro base c name e bad pre post h
    rw [categoryDocs_append, categoryDocs_cons,
      load_pdf_of_error bad _ c e h]
    simp

/-- C6 witness: a PDF whose open raises is skipped and its neighbour is
still processed. -/
theorem per_file_failures_skipped_witness :
    loadPdfBody badPdf (pathJoin (pathJoin "./documents" "HR") "bad.pdf") "HR" =
      .error "boom" ∧
    categoryDocs "./documents" "HR" [("bad.pdf", badPdf), ("a.pdf", textPdf)] =
      categoryDocs "./documents" "HR" [] ++
        categoryDocs "./documents" "HR" [("a.pdf", textPdf)] :=
  ⟨by rfl,
    per_file_failures_skipped.2 "./documents" "HR" "bad.pdf" "boom" badPdf []
      [("a.pdf", textPdf)] (by rfl)⟩

/-- C7: when no category subfolder holds a PDF, `process_documents`
returns the empty chunk sequence and every configured category subfolder
exists afterwards (missing ones were created). -/
theorem process_documents_empty (split : List Document → List Document)
    (base : String) (fs : FileSystem)
    (h : ∀ c, c ∈ DOC_CATEGORIES → ∀ folder, fs c = some folder →
      folder.filter (fun p => isPdfName p.1) = []) :
    (process_documents split base fs).1 = [] ∧
    ∀ c, c ∈ DOC_CATEGORIES →
      ((process_documents split base fs).2 c).isSome := by
  have hdocs : (DOC_CATEGORIES.foldl (ingestStep base) ([], fs)).1 = [] :=
    foldl_ingest_docs_of_no_pdfs base DOC_CATEGORIES ([], fs) h
  constructor
  · simp [process_documents, hdocs]
  · intro c hc
    have hsome := foldl_ingest_creates base DOC_CATEGORIES ([], fs) c hc
    simpa [process_documents] using hsome

set_option maxRecDepth 8000

/-- C7 witness: a documents folder whose only subfolder holds one non-PDF
file produces no chunks, and the two missing subfolders now exist. -/
theorem process_documents_empty_witness :
    (process_documents id "./documents" fsNoPdfs).1 = [] ∧
    ((process_documents id "./documents" fsNoPdfs).2 "Finance").isSome ∧
    ((process_documents id "./documents" fsNoPdfs).2 "Technical").isSome := by
  have h : ∀ c, c ∈ DOC_CATEGORIES → ∀ folder, fsNoPdfs c = some folder →
      folder.filter (fun p => isPdfName p.1) = [] := by
    intro c hc folder hf
    rcases (by simpa [DOC_CATEGORIES] using hc : c = "HR" ∨ c = "Finance" ∨
      c = "Technical") with rfl | rfl | rfl
    · have hfolder : folder = [("notes.txt", badPdf)] := by
        simpa [fsNoPdfs] using hf.symm
      rw [hfolder]
      rfl
    · simp [fsNoPdfs] at hf
    · simp [fsNoPdfs] at hf
  exact ⟨(process_documents_empty id "./documents" fsNoPdfs h).1,
    (process_documents_empty id "./documents" fsNoPdfs h).2 "Finance"
      (by simp [DOC_CATEGORIES]),
    (process_documents_empty id "./documents" fsNoPdfs h).2 "Technical"
      (by simp [DOC_CATEGORIES])⟩

/-- C8: every citation `query` returns is built from one retrieved chunk
and carries that chunk's category and filename together with the leading
200 characters of its text followed by `"..."`. -/
theorem citation_fields
    (retrieve : List Document → Retriever → String → List Document)
    (llm : String → List (String × String) → List Document → String)
    (e : RAGEngine) (question : String) (cf : Option String)
    (chain : Retriever) (hchain : e.qaChain = some chain) :
    ∀ cit ∈ (query retrieve llm e question cf).1.sources,
      ∃ d, d ∈ retrieve (e.vectorStore.getD []) (usedRetriever chain cf)
          question ∧
        cit = mkCitation d ∧
        cit.content_preview = d.page_content.take 200 ++ "..." ∧
        (∀ cat, metaGet d.metadata "category" = some cat →
          cit.category = cat) ∧
        (∀ fn, metaGet d.metadata "filename" = some fn →
          cit.filename = fn) := by
  intro cit hcit
  simp only [query, hchain] at hcit
  obtain ⟨d, hd, rfl⟩ := mem_buildSources _ _ _ hcit
  refine ⟨d, hd, rfl, rfl, ?_, ?_⟩
  · intro cat hcat
    simp [mkCitation, metaGetD, hcat]
  · intro fn hfn
    simp [mkCitation, docFilename, metaGetD, hfn]

/-- C8 witness: the citation for the stored HR chunk carries its category,
filename, and 200-character preview. -/
theorem citation_fields_witness :
    mkCitation sampleDoc ∈
      (query retrieveFiltered llmConst engineMixed "q" none).1.sources ∧
    ∃ d, d ∈ retrieveFiltered (engineMixed.vectorStore.getD [])
        (usedRetriever defaultRetriever none) "q" ∧
      mkCitation sampleDoc = mkCitation d ∧
      (mkCitation sampleDoc).content_preview =
        d.page_content.take 200 ++ "..." ∧
      (∀ cat, metaGet d.metadata "category" = some cat →
        (mkCitation sampleDoc).category = cat) ∧
      (∀ fn, metaGet d.metadata "filename" = some fn →
        (mkCitation sampleDoc).filename = fn) :=
  ⟨by decide,
    citation_fields retrieveFiltered llmConst engineMixed "q" none
      defaultRetriever rfl (mkCitation sampleDoc) (by decide)⟩

/-- C2: every chunk produced by ingestion carries a category from the
configured category list, and when a query is filtered on a category and
retrieval honours the metadata filter, every returned citation has exactly
that category. -/
theorem category_invariant_and_filtering
    (split : List Document → List Document)
    (hsplit : ∀ ds d, d ∈ split ds → ∃ d0, d0 ∈ ds ∧ d.metadata = d0.metadata)
    (base : String) (fs : FileSystem)
    (retrieve : List Document → Retriever → String → List Document)
    (hretr : ∀ vs r q d c, d ∈ retrieve vs r q → r.categoryFilter = some c →
      metaGet d.metadata "category" = some c)
    (llm : String → List (String × String) → List Document → String)
    (e : RAGEngine) (question c : String) (chain : Retriever)
    (hchain : e.qaChain = some chain) (hc0 : c ≠ "") (hc1 : c ≠ "All") :
    (∀ d, d ∈ (process_documents split base fs).1 →
      ∃ cat, cat ∈ DOC_CATEGORIES ∧ metaGet d.metadata "category" = some cat) ∧
    (∀ cit, cit ∈ (query retrieve llm e question (some c)).1.sources →
      cit.category = c) := by
  constructor
  · intro d hd
    simp only [process_documents] at hd
    by_cases hnil : (DOC_CATEGORIES.foldl (ingestStep base) ([], fs)).1.isEmpty = true
    · rw [if_pos hnil] at hd
      simp at hd
    · rw [if_neg hnil] at hd
      obtain ⟨d0, hd0, hmeta⟩ := hsplit _ _ hd
      rcases mem_foldl_ingest base DOC_CATEGORIES ([], fs) d0 hd0 with
        h0 | ⟨cat, folder, hcat, hdf⟩
      · exact absurd h0 (List.not_mem_nil d0)
      · exact ⟨cat, hcat,
          hmeta ▸ mem_categoryDocs_category base cat folder d0 hdf⟩
  · intro cit hcit
    have hused : usedRetriever chain (some c) = mkFilteredRetriever c := by
      simp [usedRetriever, hc0, hc1]
    simp only [query, hchain] at hcit
    obtain ⟨d, hd, rfl⟩ := mem_buildSources _ _ _ hcit
    have hfilt : (usedRetriever chain (some c)).categoryFilter = some c := by
      rw [hused]
      rfl
    have hcatd := hretr _ _ _ d c hd hfilt
    simp [mkCitation, metaGetD, hcatd]

/-- C2 witness: the one ingested HR chunk carries category `"HR"`, and a
`"Finance"`-filtered query over the mixed index cites only the Finance
chunk, whose citation category is `"Finance"`. -/
theorem category_invariant_and_filtering_witness :
    tagTextDoc "./documents/HR/a.pdf" "HR" pageDoc ∈
      (process_documents id "./documents" fsHRonly).1 ∧
    (∃ cat, cat ∈ DOC_CATEGORIES ∧
      metaGet (tagTextDoc "./documents/HR/a.pdf" "HR" pageDoc).metadata
        "category" = some cat) ∧
    mkCitation finDoc ∈
      (query retrieveFiltered llmConst engineMixed "q" (some "Finance")).1.sources ∧
    (mkCitation finDoc).category = "Finance" := by
  have h := category_invariant_and_filtering id
    (fun ds d hd => ⟨d, hd, rfl⟩) "./documents" fsHRonly retrieveFiltered
    (fun vs r q d c hd hf => retrieveFiltered_honors vs r q d c hd hf)
    llmConst engineMixed "q" "Finance" defaultRetriever rfl
    (by decide) (by decide)
  have hm1 : tagTextDoc "./documents/HR/a.pdf" "HR" pageDoc ∈
      (process_documents id "./documents" fsHRonly).1 := by decide
  have hm2 : mkCitation finDoc ∈
      (query retrieveFiltered llmConst engineMixed "q"
        (some "Finance")).1.sources := by decide
  exact ⟨hm1, h.1 _ hm1, hm2, h.2 _ hm2⟩

/-- C1 counterexample: after a query filtered on `"Finance"`, a subsequent
query with filter `"All"` does not reset the retriever — the chain still
carries the Finance filter, and the retriever used for the `"All"` query
is the Finance-filtered one, not an unfiltered one. -/
theorem stale_filter_on_All :
    ((query retrieveNone llmConst
        ((query retrieveNone llmConst engineMixed "q1" (some "Finance")).2)
        "q2" (some "All")).2).qaChain = some (mkFilteredRetriever "Finance") ∧
    usedRetriever (mkFilteredRetriever "Finance") (some "All") =
      mkFilteredRetriever "Finance" ∧
    (mkFilteredRetriever "Finance").categoryFilter ≠ none := by
  refine ⟨by decide, by decide, by decide⟩

/-- C1 amended: `query` reconfigures the retriever to the requested
category when `category_filter` is a non-empty name other than `"All"`;
when it is `"All"`, empty or absent, the chain's current retriever is left
unchanged, so a category filter installed by an earlier query persists. -/
theorem retriever_reconfiguration
    (retrieve : List Document → Retriever → String → List Document)
    (llm : String → List (String × String) → List Document → String)
    (e : RAGEngine) (q : String) (cf : Option String) (chain : Retriever)
    (hchain : e.qaChain = some chain) :
    (∀ c, cf = some c → c ≠ "" → c ≠ "All" →
      usedRetriever chain cf = mkFilteredRetriever c ∧
      ((query retrieve llm e q cf).2).qaChain =
        some (mkFilteredRetriever c)) ∧
    ((cf = none ∨ cf = some "" ∨ cf = some "All") →
      usedRetriever chain cf = chain ∧
      ((query retrieve llm e q cf).2).qaChain = some chain) := by
  constructor
  · intro c hcf hc0 hc1
    subst hcf
    have hu : usedRetriever chain (some c) = mkFilteredRetriever c := by
      simp [usedRetriever, hc0, hc1]
    exact ⟨hu, by simp [query, hchain, hu]⟩
  · intro hcf
    have hu : usedRetriever chain cf = chain := by
      rcases hcf with rfl | rfl | rfl <;> simp [usedRetriever]
    exact ⟨hu, by simp [query, hchain, hu]⟩

/-- C1 amended witness: a `"Finance"` query installs the Finance-filtered
retriever, and a following `"All"` query leaves it installed. -/
theorem retriever_reconfiguration_witness :
    (usedRetriever defaultRetriever (some "Finance") =
      mkFilteredRetriever "Finance" ∧
    ((query retrieveNone llmConst engineMixed "q" (some "Finance")).2).qaChain =
      some (mkFilteredRetriever "Finance")) ∧
    (usedRetriever (mkFilteredRetriever "Finance") (some "All") =
      mkFilteredRetriever "Finance" ∧
    ((query retrieveNone llmConst
        ((query retrieveNone llmConst engineMixed "q" (some "Finance")).2)
        "q2" (some "All")).2).qaChain = some (mkFilteredRetriever "Finance")) :=
  ⟨(retriever_reconfiguration retrieveNone llmConst engineMixed "q"
      (some "Finance") defaultRetriever rfl).1 "Finance" rfl
      (by decide) (by decide),
    (retriever_reconfiguration retrieveNone llmConst
      ((query retrieveNone llmConst engineMixed "q" (some "Finance")).2)
      "q2" (some "All") (mkFilteredRetriever "Finance") (by decide)).2
      (Or.inr (Or.inr rfl))⟩

end DocSearch
